import Mathlib

/-!
Verification of the supergin WebSocket hub (src/unnamed/part_002) against its
natural-language specification.  The Go source is shallowly embedded: the hub's
coordination loop (`WebSocketHub.Run`) becomes explicit step functions over a
`WebSocketHub` state value, Go channels become FIFO lists, `json.Marshal`
becomes a total classification of Go values into serializable / unsupported
plus a renderer, and handler callbacks become trace events paired with the
registry snapshot visible at the instant the callback runs.
-/

namespace Supergin

mutual

/-- Model of a Go interface value as seen by `encoding/json`: JSON-encodable
shapes plus an `unsupported` constructor standing for values `json.Marshal`
rejects (channels, funcs, complex numbers, cycles).  `JArray` and `JObject`
are bespoke mutual list types so that structural recursion and induction stay
simple. -/
inductive JValue : Type where
  | null : JValue
  | bool (b : Bool) : JValue
  | num (n : Int) : JValue
  | str (s : String) : JValue
  | arr (elems : JArray) : JValue
  | obj (fields : JObject) : JValue
  | unsupported (kind : String) : JValue

inductive JArray : Type where
  | nil : JArray
  | cons (v : JValue) (rest : JArray) : JArray

inductive JObject : Type where
  | nil : JObject
  | cons (key : String) (v : JValue) (rest : JObject) : JObject

end

mutual

/-- Whether `json.Marshal` succeeds on a value: it fails exactly when some
`unsupported` leaf occurs. -/
def jSerializable : JValue → Bool
  | .null => true
  | .bool _ => true
  | .num _ => true
  | .str _ => true
  | .arr l => jArrSerializable l
  | .obj l => jObjSerializable l
  | .unsupported _ => false

def jArrSerializable : JArray → Bool
  | .nil => true
  | .cons v rest => jSerializable v && jArrSerializable rest

def jObjSerializable : JObject → Bool
  | .nil => true
  | .cons _ v rest => jSerializable v && jObjSerializable rest

end

mutual

/-- Renderer for the JSON text `json.Marshal` would produce (escaping is not
modelled; the bytes only need to be a function of the value). -/
def renderJValue : JValue → String
  | .null => "null"
  | .bool b => if b then "true" else "false"
  | .num n => toString n
  | .str s => "\"" ++ s ++ "\""
  | .arr l => "[" ++ renderJArray l ++ "]"
  | .obj l => "\x7b" ++ renderJObject l ++ "\x7d"
  | .unsupported _ => ""

def renderJArray : JArray → String
  | .nil => ""
  | .cons v rest => renderJValue v ++ "," ++ renderJArray rest

def renderJObject : JObject → String
  | .nil => ""
  | .cons k v rest => "\"" ++ k ++ "\":" ++ renderJValue v ++ "," ++ renderJObject rest

end

/-- Model of `json.Marshal`: errors exactly on unsupported values, otherwise
produces the rendered bytes. -/
def jsonMarshal (v : JValue) : Except String String :=
  if jSerializable v then .ok (renderJValue v) else .error "json: unsupported type"

/-- Source struct `WebSocketMessage` (the wire envelope); `Type` is a Lean
keyword so the field is named `Type'`.  `time.Time` is modelled as an integer
timestamp. -/
structure WebSocketMessage where
  Type' : String
  Data : JValue
  Timestamp : Int

/-- Envelope value handed to `json.Marshal` by `Broadcast` / `Send`. -/
def messageValue (m : WebSocketMessage) : JValue :=
  .obj (.cons "type" (.str m.Type')
    (.cons "data" m.Data
      (.cons "timestamp" (.num m.Timestamp) .nil)))

/-- Bytes produced for an envelope when serialization succeeds. -/
def renderMessage (msgType : String) (data : JValue) (now : Int) : String :=
  renderJValue (messageValue ⟨msgType, data, now⟩)

/-- Model of `json.Marshal(message)` as performed in `Broadcast`,
`SendToConnection` and `WebSocketConnection.Send`. -/
def marshalMessage (msgType : String) (data : JValue) (now : Int) : Except String String :=
  jsonMarshal (messageValue ⟨msgType, data, now⟩)

/-- Source struct `WebSocketConnection`.  The buffered channel `Send chan
[]byte` is modelled as the FIFO list of its queued contents plus its capacity
(`sendCap`; the source creates every connection with capacity 256, the model
keeps it a field so the spec's capacity-4 scenarios are statable).  `Metadata`
is `Option` of an association list: `none` is Go's nil map. -/
structure WebSocketConnection where
  ID : String
  Send : List String
  sendCap : Nat
  Metadata : Option (List (String × JValue))

/-- Source struct `WebSocketHub`.  `connections` is the registry (`map[string]
*WebSocketConnection`) as an association list of connections keyed by `ID`.
`closedQs` records the ids whose send channel has been `close`d — the real
side effect of `close(conn.Send)`, made visible in the state. -/
structure WebSocketHub where
  connections : List WebSocketConnection
  closedQs : List String

/-- Registry key view: the ids currently registered, in registry order. -/
def WebSocketHub.ids (h : WebSocketHub) : List String :=
  h.connections.map (·.ID)

/-- Handler callback events (the `WebSocketHandler` interface). -/
inductive HEvent : Type where
  | onConnect (id : String) : HEvent
  | onDisconnect (id : String) : HEvent
  | onMessage (id : String) (msgType : String) (data : JValue) : HEvent
  | onError (id : String) : HEvent

def HEvent.isOnDisconnect : HEvent → Bool
  | .onDisconnect _ => true
  | _ => false

def HEvent.isOnConnect : HEvent → Bool
  | .onConnect _ => true
  | _ => false

def HEvent.isOnError : HEvent → Bool
  | .onError _ => true
  | _ => false

def HEvent.isOnMessage : HEvent → Bool
  | .onMessage _ _ _ => true
  | _ => false

/-- One emitted callback together with the registry ids visible at the moment
the handler runs (what `GetConnections` inside the callback would see). -/
abbrev TraceItem := HEvent × List String

/-- Map insert `h.connections[conn.ID] = conn`: overwrite in place when the id
exists, append otherwise. -/
def insertConn (conns : List WebSocketConnection) (c : WebSocketConnection) :
    List WebSocketConnection :=
  if conns.any (fun x => x.ID == c.ID) then
    conns.map (fun x => if x.ID == c.ID then c else x)
  else conns ++ [c]

/-- Register branch of `WebSocketHub.Run` (lines 87-96): insert into the
registry under the lock, then fire `OnConnect`. -/
def stepRegister (h : WebSocketHub) (c : WebSocketConnection) :
    WebSocketHub × List TraceItem :=
  let h' : WebSocketHub := { h with connections := insertConn h.connections c }
  (h', [(.onConnect c.ID, h'.ids)])

/-- Unregister branch of `WebSocketHub.Run` (lines 98-110): when the id is
present, delete it and close its send channel; then fire `OnDisconnect`
unconditionally — the source calls the handler outside the membership check. -/
def stepUnregister (h : WebSocketHub) (cid : String) :
    WebSocketHub × List TraceItem :=
  if h.connections.any (fun x => x.ID == cid) then
    let h' : WebSocketHub :=
      { connections := h.connections.filter (fun x => x.ID != cid),
        closedQs := h.closedQs ++ [cid] }
    (h', [(.onDisconnect cid, h'.ids)])
  else
    (h, [(.onDisconnect cid, h.ids)])

/-- Whether the buffered send channel can accept one more message without
blocking (the `select ... default` test). -/
def hasRoom (c : WebSocketConnection) : Bool :=
  c.Send.length < c.sendCap

/-- Fan-out loop body of the broadcast branch (lines 112-122): enqueue on each
connection with room; a full channel hits the `default` arm, which closes the
channel and deletes the connection.  Returns the surviving connections and the
ids whose channel was closed.  No handler callback fires here. -/
def deliverAll (msg : String) : List WebSocketConnection →
    List WebSocketConnection × List String
  | [] => ([], [])
  | c :: rest =>
    let p := deliverAll msg rest
    if hasRoom c then ({ c with Send := c.Send ++ [msg] } :: p.1, p.2)
    else (p.1, c.ID :: p.2)

/-- Broadcast branch of `WebSocketHub.Run`: fan the already-serialized bytes
out to every registered connection. -/
def stepBroadcast (h : WebSocketHub) (msg : String) :
    WebSocketHub × List TraceItem :=
  let p := deliverAll msg h.connections
  ({ connections := p.1, closedQs := h.closedQs ++ p.2 }, [])

/-- One request on the hub's coordination channels. -/
inductive Request : Type where
  | register (c : WebSocketConnection) : Request
  | unregister (cid : String) : Request
  | broadcast (msg : String) : Request

/-- Whether a request is a register/unregister coordination request. -/
def Request.isCoord : Request → Bool
  | .register _ => true
  | .unregister _ => true
  | .broadcast _ => false

/-- One iteration of the `select` in `WebSocketHub.Run`. -/
def stepHub (h : WebSocketHub) : Request → WebSocketHub × List TraceItem
  | .register c => stepRegister h c
  | .unregister cid => stepUnregister h cid
  | .broadcast msg => stepBroadcast h msg

/-- Run the coordination loop over a finite prefix of requests, tracking the
hub state. -/
def runHub (h : WebSocketHub) : List Request → WebSocketHub
  | [] => h
  | r :: rest => runHub (stepHub h r).1 rest

/-- Hub as built by `NewWebSocketHub`: empty registry. -/
def hubInit : WebSocketHub := { connections := [], closedQs := [] }

/-- `WebSocketHub.Broadcast` (lines 128-142) combined with the coordination
loop's processing of the submitted bytes: marshal the envelope once; on a
serialization error return it without submitting anything; otherwise fan out.
The channel submit itself never produces an error. -/
def WebSocketHub.Broadcast (h : WebSocketHub) (msgType : String) (data : JValue)
    (now : Int) : WebSocketHub × List TraceItem × Except String Unit :=
  match marshalMessage msgType data now with
  | .error e => (h, [], .error e)
  | .ok bytes =>
    let p := stepBroadcast h bytes
    (p.1, p.2, .ok ())

/-- Method `WebSocketConnection.Send` (lines 170-188).  The Go source declares
both a field and a method named `Send`; Lean cannot, so the method is
`connSend`.  Marshal, then non-blocking enqueue: a full channel returns an
error and changes nothing. -/
def connSend (c : WebSocketConnection) (msgType : String) (data : JValue)
    (now : Int) : WebSocketConnection × Except String Unit :=
  match marshalMessage msgType data now with
  | .error e => (c, .error e)
  | .ok bytes =>
    if hasRoom c then ({ c with Send := c.Send ++ [bytes] }, .ok ())
    else (c, .error "connection send channel is full")

/-- `WebSocketHub.SendToConnection` (lines 145-155): registry lookup under the
read lock, not-found error for absent ids, otherwise delegate to the
connection's send method. -/
def WebSocketHub.SendToConnection (h : WebSocketHub) (cid msgType : String)
    (data : JValue) (now : Int) : WebSocketHub × Except String Unit :=
  match h.connections.find? (fun x => x.ID == cid) with
  | none => (h, .error ("connection " ++ cid ++ " not found"))
  | some c =>
    let p := connSend c msgType data now
    ({ h with connections := h.connections.map (fun x => if x.ID == cid then p.1 else x) },
     p.2)

/-- `WebSocketConnection.SetMetadata` (lines 191-199): lazily initialize the
map, then insert (an association-list cons whose lookup semantics match map
overwrite). -/
def WebSocketConnection.SetMetadata (c : WebSocketConnection) (key : String)
    (value : JValue) : WebSocketConnection :=
  { c with Metadata := some ((key, value) :: c.Metadata.getD []) }

/-- `WebSocketConnection.GetMetadata` (lines 202-211): `(nil, false)` on a nil
map or absent key, `(value, true)` otherwise. -/
def WebSocketConnection.GetMetadata (c : WebSocketConnection) (key : String) :
    Option JValue × Bool :=
  match c.Metadata with
  | none => (none, false)
  | some l =>
    match l.lookup key with
    | some v => (some v, true)
    | none => (none, false)

/-- Apply a sequence of `SetMetadata` calls. -/
def applySets (c : WebSocketConnection) : List (String × JValue) → WebSocketConnection
  | [] => c
  | kv :: rest => applySets (c.SetMetadata kv.1 kv.2) rest

/-- Result of `conn.Conn.ReadMessage()` as seen by `readPump`: a frame's raw
bytes classified by whether they decode as the `WebSocketMessage` envelope, or
a read error (flagged with whether `IsUnexpectedCloseError` holds). -/
inductive Frame : Type where
  | malformed : Frame
  | valid (msgType : String) (data : JValue) : Frame

inductive InItem : Type where
  | frame (f : Frame) : InItem
  | readErr (unexpected : Bool) : InItem

/-- Handler events emitted by `readPump` (lines 293-316) over a sequence of
reads: malformed frames are logged and skipped (`continue`), valid frames fire
`OnMessage`, a read error breaks the loop, firing `OnError` first when it is an
unexpected close. -/
def readPumpEvents (cid : String) : List InItem → List HEvent
  | [] => []
  | .frame .malformed :: rest => readPumpEvents cid rest
  | .frame (.valid t d) :: rest => .onMessage cid t d :: readPumpEvents cid rest
  | .readErr true :: _ => [.onError cid]
  | .readErr false :: _ => []

/-- `writePump` (lines 327-351) drain schedule: `pending` is the channel
content at the current wake-up; each schedule entry `(arr, cNum)` says which
messages have additionally arrived before the next wake-up and how many queued
messages the coalescing loop (`n := len(conn.Send)`) folds into the same
transport write.  Each produced element is one transport write (the newline
separators are immaterial to ordering).  After the schedule the pump drains the
rest one message per wake-up. -/
def pumpWrites : List String → List (List String × Nat) → List (List String)
  | pending, [] => pending.map (fun m => [m])
  | pending, (arr, cNum) :: sched =>
    let q := pending ++ arr
    if q.isEmpty then pumpWrites [] sched
    else q.take (cNum + 1) :: pumpWrites (q.drop (cNum + 1)) sched

/-! ## Helper lemmas -/

theorem mem_ids_insertConn (conns : List WebSocketConnection)
    (c : WebSocketConnection) : c.ID ∈ (insertConn conns c).map (·.ID) := by
  unfold insertConn
  by_cases hany : conns.any (fun x => x.ID == c.ID) = true
  · simp only [hany, if_true]
    rcases List.any_eq_true.mp hany with ⟨x, hx, hxid⟩
    refine List.mem_map.mpr ⟨c, List.mem_map.mpr ⟨x, hx, ?_⟩, rfl⟩
    simp [hxid]
  · simp [hany]

theorem mem_insertConn_id (conns : List WebSocketConnection)
    (c x : WebSocketConnection) (hx : x ∈ insertConn conns c)
    (hid : x.ID = c.ID) : x = c := by
  unfold insertConn at hx
  by_cases hany : conns.any (fun y => y.ID == c.ID) = true
  · simp only [hany, if_true] at hx
    rcases List.mem_map.mp hx with ⟨y, _, hfy⟩
    by_cases hyc : (y.ID == c.ID) = true
    · rw [← hfy]; simp [hyc]
    · rw [← hfy] at hid ⊢
      simp only [Bool.not_eq_true] at hyc
      simp only [hyc, if_false] at hid ⊢
      exact absurd (beq_iff_eq.mpr hid) (by simp [hyc])
  · simp only [hany, if_false] at hx
    rcases List.mem_append.mp hx with hmem | hmem
    · have := List.any_eq_false.mp (Bool.not_eq_true _ ▸ hany) x hmem
      exact absurd (beq_iff_eq.mpr hid) (by simp [this])
    · simpa using hmem

theorem flatten_map_singleton (l : List String) :
    (l.map (fun m => [m])).flatten = l := by
  induction l with
  | nil => rfl
  | cons a t ih => simp [ih]

/-! ## Claims -/

/-- Claim C7: processing a registration request makes the connection visible
in the registry before `OnConnect` fires (the snapshot paired with the event
is the post-insert registry and contains the id), and `OnConnect` fires
exactly once per registration (the emitted trace is that single event). -/
theorem register_visible_before_onConnect (h : WebSocketHub)
    (c : WebSocketConnection) :
    (stepRegister h c).2
      = [(HEvent.onConnect c.ID, (stepRegister h c).1.ids)] ∧
    c.ID ∈ (stepRegister h c).1.ids := by
  exact ⟨rfl, mem_ids_insertConn h.connections c⟩

/-- Claim C8: a frame that fails to decode as the `WireMessage` envelope is
skipped — the pump continues with the remaining input, emits no event for it
and no `OnError`; a subsequent valid ping frame yields exactly one
`OnMessage` with that type and payload. -/
theorem malformed_frames_skipped (cid : String) (rest : List InItem) :
    (readPumpEvents cid (InItem.frame Frame.malformed :: rest)
      = readPumpEvents cid rest) ∧
    (readPumpEvents cid [InItem.frame Frame.malformed,
        InItem.frame (Frame.valid "ping" (JValue.obj JObject.nil))]
      = [HEvent.onMessage cid "ping" (JValue.obj JObject.nil)]) ∧
    ((readPumpEvents cid [InItem.frame Frame.malformed,
        InItem.frame (Frame.valid "ping" (JValue.obj JObject.nil))]).countP
          (fun e => e.isOnError) = 0) ∧
    ((readPumpEvents cid [InItem.frame Frame.malformed,
        InItem.frame (Frame.valid "ping" (JValue.obj JObject.nil))]).countP
          (fun e => e.isOnMessage) = 1) :=
  ⟨rfl, rfl, rfl, rfl⟩

/-- Claim C9: the outbound pump is FIFO — for any initial queue content, any
arrival pattern and any coalescing schedule, concatenating the transport
writes produced by `pumpWrites` reproduces every enqueued message in enqueue
order (both `Broadcast` fan-out and `SendToConnection` append to the
connection's queue, see `deliverAll` and `connSend`). -/
theorem writePump_fifo (pending : List String)
    (sched : List (List String × Nat)) :
    (pumpWrites pending sched).flatten
      = pending ++ (sched.map Prod.fst).flatten := by
  induction sched generalizing pending with
  | nil => simp [pumpWrites, flatten_map_singleton]
  | cons p sched ih =>
    obtain ⟨arr, cNum⟩ := p
    by_cases hq : (pending ++ arr).isEmpty = true
    · rw [List.isEmpty_iff] at hq
      rcases List.append_eq_nil.mp hq with ⟨hp, ha⟩
      subst hp; subst ha
      simp [pumpWrites, ih]
    · simp only [pumpWrites, hq, if_false, Bool.false_eq_true]
      rw [List.flatten_cons, ih]
      rw [← List.append_assoc, List.take_append_drop]
      simp

theorem deliverAll_all_room (msg : String) (l : List WebSocketConnection)
    (hroom : ∀ c ∈ l, hasRoom c = true) :
    deliverAll msg l
      = (l.map (fun c => { c with Send := c.Send ++ [msg] }), []) := by
  induction l with
  | nil => rfl
  | cons c rest ih =>
    have hc := hroom c (List.mem_cons_self c rest)
    have hr : ∀ x ∈ rest, hasRoom x = true :=
      fun x hx => hroom x (List.mem_cons_of_mem c hx)
    simp [deliverAll, hc, ih hr]

/-- Claim C1: when a broadcast request is processed, every connection
registered at that moment (each with room in its queue, the regime the
overflow policy of C3 does not apply to) has exactly one copy of the message
appended to its outbound queue — the count of the message in its queue rises
by exactly one, so no connection receives it twice — the registry and the
closed-channel record are untouched, no callback fires, and a connection
registered afterwards with a fresh (empty) queue holds no copy. -/
theorem broadcast_delivers_exactly_once (h : WebSocketHub) (msg : String)
    (hroom : ∀ c ∈ h.connections, hasRoom c = true) :
    ((stepBroadcast h msg).1.connections
        = h.connections.map (fun c => { c with Send := c.Send ++ [msg] })) ∧
    ((stepBroadcast h msg).1.closedQs = h.closedQs) ∧
    ((stepBroadcast h msg).2 = []) ∧
    (∀ c ∈ h.connections,
      (c.Send ++ [msg]).count msg = c.Send.count msg + 1) ∧
    (∀ c₂ : WebSocketConnection, c₂.Send = [] →
      ∀ x ∈ (stepRegister (stepBroadcast h msg).1 c₂).1.connections,
        x.ID = c₂.ID → x.Send.count msg = 0) := by
  have hd := deliverAll_all_room msg h.connections hroom
  refine ⟨?_, ?_, rfl, ?_, ?_⟩
  · show (deliverAll msg h.connections).1 = _
    rw [hd]
  · show h.closedQs ++ (deliverAll msg h.connections).2 = h.closedQs
    rw [hd]; simp
  · intro c _
    simp [List.count_append]
  · intro c₂ hc₂ x hx hid
    have hxc : x = c₂ := mem_insertConn_id _ c₂ x hx hid
    rw [hxc, hc₂]
    rfl

def w1hub : WebSocketHub :=
  ⟨[⟨"a", ["x"], 4, none⟩, ⟨"b", [], 4, none⟩], []⟩

theorem broadcast_delivers_exactly_once_witness :
    (∀ c ∈ w1hub.connections, hasRoom c = true) ∧
    ((stepBroadcast w1hub "m").1.connections
      = w1hub.connections.map (fun c => { c with Send := c.Send ++ ["m"] })) ∧
    ((stepBroadcast w1hub "m").1.closedQs = w1hub.closedQs) :=
  ⟨by decide,
   (broadcast_delivers_exactly_once w1hub "m" (by decide)).1,
   (broadcast_delivers_exactly_once w1hub "m" (by decide)).2.1⟩

/-- Modelled from the spec: the reference registry content, "the set of
connections registered-and-not-yet-unregistered" — a register request adds
the id when absent, an unregister request removes it; broadcasts do not touch
it. -/
def refRegistry (acc : List String) : List Request → List String
  | [] => acc
  | .register c :: rest =>
    refRegistry (if acc.any (fun s => s == c.ID) then acc else acc ++ [c.ID]) rest
  | .unregister cid :: rest => refRegistry (acc.filter (fun s => s != cid)) rest
  | .broadcast _ :: rest => refRegistry acc rest

theorem map_filter_comm {α β : Type} (f : α → β) (p : β → Bool) (l : List α) :
    (l.filter (fun x => p (f x))).map f = (l.map f).filter p := by
  induction l with
  | nil => rfl
  | cons a t ih => by_cases h : p (f a) <;> simp [List.filter_cons, h, ih]

theorem ids_insertConn (conns : List WebSocketConnection)
    (c : WebSocketConnection) :
    (insertConn conns c).map (·.ID)
      = if (conns.map (·.ID)).any (fun s => s == c.ID) then conns.map (·.ID)
        else conns.map (·.ID) ++ [c.ID] := by
  unfold insertConn
  have hany : ((conns.map (·.ID)).any (fun s => s == c.ID))
      = conns.any (fun x => x.ID == c.ID) := by
    induction conns with
    | nil => rfl
    | cons a t ih => simp [ih]
  rw [hany]
  by_cases h : conns.any (fun x => x.ID == c.ID) = true
  · simp only [h, if_true]
    rw [List.map_map]
    refine List.map_congr_left ?_
    intro x _
    by_cases hx : (x.ID == c.ID) = true
    · simp only [Function.comp, hx, if_true]
      exact (beq_iff_eq.mp hx).symm
    · simp only [Bool.not_eq_true] at hx
      simp [Function.comp, hx]
  · simp [h]

theorem ids_stepUnregister (h : WebSocketHub) (cid : String) :
    (stepUnregister h cid).1.ids = h.ids.filter (fun s => s != cid) := by
  unfold stepUnregister
  by_cases hany : h.connections.any (fun x => x.ID == cid) = true
  · simp only [hany, if_true]
    show (h.connections.filter (fun x => x.ID != cid)).map (·.ID) = _
    exact map_filter_comm (·.ID) (fun s => s != cid) h.connections
  · simp only [hany, if_false, Bool.false_eq_true]
    have : ∀ s ∈ h.ids, (s != cid) = true := by
      intro s hs
      rcases List.mem_map.mp hs with ⟨x, hx, hxid⟩
      have := List.any_eq_false.mp (Bool.not_eq_true _ ▸ hany) x hx
      rw [← hxid]
      simpa using this
    exact (List.filter_eq_self.mpr this).symm

theorem runHub_ids_ref (reqs : List Request) :
    ∀ h : WebSocketHub, reqs.all Request.isCoord = true → h.ids.Nodup →
      (runHub h reqs).ids = refRegistry h.ids reqs ∧
      (runHub h reqs).ids.Nodup := by
  induction reqs with
  | nil => exact fun h _ hnd => ⟨rfl, hnd⟩
  | cons r rest ih =>
    intro h hall hnd
    rw [List.all_cons, Bool.and_eq_true] at hall
    cases r with
    | register c =>
      have h1 : (stepRegister h c).1.ids
          = if h.ids.any (fun s => s == c.ID) then h.ids
            else h.ids ++ [c.ID] := ids_insertConn h.connections c
      have hnd' : (stepRegister h c).1.ids.Nodup := by
        rw [h1]
        by_cases hy : h.ids.any (fun s => s == c.ID) = true
        · simpa [hy] using hnd
        · have hnotmem : c.ID ∉ h.ids := by
            intro hmem
            have := List.any_eq_false.mp (Bool.not_eq_true _ ▸ hy) c.ID hmem
            simp at this
          simp [hy, List.nodup_append, hnd, hnotmem]
      obtain ⟨he, hn⟩ := ih (stepRegister h c).1 hall.2 hnd'
      refine ⟨?_, hn⟩
      show (runHub (stepRegister h c).1 rest).ids = _
      rw [he, h1]
      rfl
    | unregister cid =>
      have h1 := ids_stepUnregister h cid
      have hnd' : (stepUnregister h cid).1.ids.Nodup := by
        rw [h1]; exact hnd.filter _
      obtain ⟨he, hn⟩ := ih (stepUnregister h cid).1 hall.2 hnd'
      refine ⟨?_, hn⟩
      show (runHub (stepUnregister h cid).1 rest).ids = _
      rw [he, h1]
      rfl
    | broadcast msg => simp [Request.isCoord] at hall

/-- Claim C4: over any sequence of register and unregister requests processed
by the coordination loop, the registry key set equals the reference "registered
and not yet unregistered" set (same ids, in order), with no duplicate entries;
applying the theorem to any prefix gives the guarantee at every point. -/
theorem registry_matches_reference (reqs : List Request)
    (hreq : reqs.all Request.isCoord = true) :
    (runHub hubInit reqs).ids = refRegistry [] reqs ∧
    (runHub hubInit reqs).ids.Nodup :=
  runHub_ids_ref reqs hubInit hreq List.nodup_nil

def w4reqs : List Request :=
  [.register ⟨"a", [], 4, none⟩, .register ⟨"b", [], 4, none⟩, .unregister "a"]

theorem registry_matches_reference_witness :
    (w4reqs.all Request.isCoord = true) ∧
    ((runHub hubInit w4reqs).ids = refRegistry [] w4reqs) ∧
    (runHub hubInit w4reqs).ids.Nodup :=
  ⟨by decide,
   (registry_matches_reference w4reqs (by decide)).1,
   (registry_matches_reference w4reqs (by decide)).2⟩

theorem marshalMessage_eq (msgType : String) (data : JValue) (now : Int) :
    marshalMessage msgType data now
      = if jSerializable data then Except.ok (renderMessage msgType data now)
        else Except.error "json: unsupported type" := by
  unfold marshalMessage jsonMarshal renderMessage messageValue
  simp [jSerializable, jObjSerializable]

/-- Claim C5: `Broadcast` returns an error exactly when the envelope of type,
payload and timestamp cannot be serialized (the payload holds an unsupported
value); a full or slow connection queue never makes it error; and on a
serialization error the hub state is untouched and no callback fires. -/
theorem Broadcast_error_iff_serialization (h : WebSocketHub)
    (msgType : String) (data : JValue) (now : Int) :
    ((∃ e, (h.Broadcast msgType data now).2.2 = Except.error e)
        ↔ jSerializable data = false) ∧
    (jSerializable data = false →
      (h.Broadcast msgType data now).1 = h ∧
      (h.Broadcast msgType data now).2.1 = []) ∧
    (jSerializable data = true →
      (h.Broadcast msgType data now).2.2 = Except.ok ()) := by
  have hm := marshalMessage_eq msgType data now
  cases hd : jSerializable data with
  | false =>
    rw [hd] at hm
    simp only [if_false, Bool.false_eq_true] at hm
    refine ⟨⟨fun _ => rfl, fun _ => ?_⟩, fun _ => ?_, fun hc => ?_⟩
    · exact ⟨"json: unsupported type", by simp [WebSocketHub.Broadcast, hm]⟩
    · constructor <;> simp [WebSocketHub.Broadcast, hm]
    · exact absurd hc (by simp [hd])
  | true =>
    rw [hd] at hm
    simp only [if_true] at hm
    refine ⟨⟨fun he => ?_, fun hc => absurd hc (by simp [hd])⟩,
      fun hc => absurd hc (by simp [hd]), fun _ => ?_⟩
    · rcases he with ⟨e, he⟩
      rw [show (h.Broadcast msgType data now).2.2 = Except.ok () from
        by simp [WebSocketHub.Broadcast, hm]] at he
      cases he
    · simp [WebSocketHub.Broadcast, hm]

def w5hub : WebSocketHub := ⟨[⟨"a", [], 4, none⟩], []⟩

theorem Broadcast_error_iff_serialization_witness :
    (jSerializable (JValue.unsupported "chan") = false) ∧
    ((w5hub.Broadcast "t" (JValue.unsupported "chan") 0).1 = w5hub) ∧
    ((w5hub.Broadcast "t" (JValue.unsupported "chan") 0).2.1 = []) :=
  ⟨rfl,
   ((Broadcast_error_iff_serialization w5hub "t"
      (JValue.unsupported "chan") 0).2.1 rfl).1,
   ((Broadcast_error_iff_serialization w5hub "t"
      (JValue.unsupported "chan") 0).2.1 rfl).2⟩

/-- Claim C2 counterexample: a hub with one registered connection processes
two unregister requests for it; `OnDisconnect` fires twice — the source calls
the handler outside the membership check — refuting "exactly once". -/
def x2hub : WebSocketHub := ⟨[⟨"a", [], 4, none⟩], []⟩

theorem unregister_twice_fires_onDisconnect_twice :
    (((stepUnregister x2hub "a").2
        ++ (stepUnregister (stepUnregister x2hub "a").1 "a").2).countP
      (fun it => it.1.isOnDisconnect)) = 2 := by
  rfl

/-- Claim C2 amended: unregister is idempotent on the state — a second
unregister request for the same connection leaves the registry unchanged (the
registry holds exactly the original connections with that id removed) and
closes the send queue only once, on the first request and only if the
connection was registered; the queue close and the `OnDisconnect` callback
happen after removal (the id is absent from the snapshot each callback
observes); but `OnDisconnect` fires once per request — twice for two
requests — not exactly once. -/
theorem unregister_registry_idempotent (h : WebSocketHub) (cid : String) :
    ((stepUnregister (stepUnregister h cid).1 cid).1.connections
        = h.connections.filter (fun x => x.ID != cid)) ∧
    ((stepUnregister (stepUnregister h cid).1 cid).1.closedQs
        = h.closedQs
          ++ (if h.connections.any (fun x => x.ID == cid) then [cid] else [])) ∧
    ((stepUnregister h cid).2
        = [(HEvent.onDisconnect cid, (stepUnregister h cid).1.ids)]) ∧
    ((stepUnregister (stepUnregister h cid).1 cid).2
        = [(HEvent.onDisconnect cid,
            (stepUnregister (stepUnregister h cid).1 cid).1.ids)]) ∧
    (cid ∉ (stepUnregister h cid).1.ids) := by
  have hfilter2 : ∀ l : List WebSocketConnection,
      (l.filter (fun x => x.ID != cid)).any (fun x => x.ID == cid) = false := by
    intro l
    rw [List.any_eq_false]
    intro x hx
    have := (List.mem_filter.mp hx).2
    simp only [bne_iff_ne, ne_eq, decide_eq_true_eq] at this
    simp [this]
  have hnotids : ∀ l : List WebSocketConnection,
      cid ∉ (l.filter (fun x => x.ID != cid)).map (·.ID) := by
    intro l hmem
    rcases List.mem_map.mp hmem with ⟨x, hx, hxid⟩
    have := (List.mem_filter.mp hx).2
    rw [hxid] at this
    simp at this
  by_cases hany : h.connections.any (fun x => x.ID == cid) = true
  · have hstep1 : stepUnregister h cid
        = (⟨h.connections.filter (fun x => x.ID != cid), h.closedQs ++ [cid]⟩,
           [(HEvent.onDisconnect cid,
             (h.connections.filter (fun x => x.ID != cid)).map (·.ID))]) := by
      simp [stepUnregister, hany, WebSocketHub.ids]
    have hstep2 : stepUnregister (stepUnregister h cid).1 cid
        = ((stepUnregister h cid).1,
           [(HEvent.onDisconnect cid, (stepUnregister h cid).1.ids)]) := by
      rw [hstep1]
      simp [stepUnregister, hfilter2 h.connections]
    refine ⟨?_, ?_, ?_, ?_, ?_⟩
    · rw [hstep2, hstep1]
    · rw [hstep2, hstep1]; simp [hany]
    · rw [hstep1]; rfl
    · rw [hstep2]
    · rw [hstep1]
      exact hnotids h.connections
  · have hstep1 : stepUnregister h cid
        = (h, [(HEvent.onDisconnect cid, h.ids)]) := by
      simp [stepUnregister, hany]
    have hfe : h.connections.filter (fun x => x.ID != cid) = h.connections := by
      refine List.filter_eq_self.mpr ?_
      intro x hx
      have := List.any_eq_false.mp (Bool.not_eq_true _ ▸ hany) x hx
      simpa using this
    refine ⟨?_, ?_, ?_, ?_, ?_⟩
    · rw [hstep1, hstep1, hfe]
    · rw [hstep1, hstep1]
      simp [hany]
    · rw [hstep1]
    · rw [hstep1, hstep1]
    · rw [hstep1]
      intro hmem
      rcases List.mem_map.mp hmem with ⟨x, hx, hxid⟩
      have := List.any_eq_false.mp (Bool.not_eq_true _ ▸ hany) x hx
      rw [hxid] at this
      simp at this

def w2hub : WebSocketHub := ⟨[⟨"a", [], 4, none⟩], []⟩

theorem unregister_registry_idempotent_witness :
    ((stepUnregister (stepUnregister w2hub "a").1 "a").1.connections
        = w2hub.connections.filter (fun x => x.ID != "a")) ∧
    ((stepUnregister (stepUnregister w2hub "a").1 "a").1.closedQs
        = w2hub.closedQs
          ++ (if w2hub.connections.any (fun x => x.ID == "a") then ["a"] else [])) ∧
    ("a" ∉ (stepUnregister w2hub "a").1.ids) :=
  ⟨(unregister_registry_idempotent w2hub "a").1,
   (unregister_registry_idempotent w2hub "a").2.1,
   (unregister_registry_idempotent w2hub "a").2.2.2.2⟩

theorem deliverAll_eq (msg : String) (l : List WebSocketConnection) :
    deliverAll msg l
      = ((l.filter hasRoom).map (fun c => { c with Send := c.Send ++ [msg] }),
         (l.filter (fun c => !(hasRoom c))).map (·.ID)) := by
  induction l with
  | nil => rfl
  | cons c rest ih =>
    cases hr : hasRoom c <;> simp [deliverAll, hr, ih, List.filter_cons]

theorem eq_of_mem_of_id_eq (l : List WebSocketConnection)
    (hnd : (l.map (·.ID)).Nodup) (x c : WebSocketConnection)
    (hx : x ∈ l) (hc : c ∈ l) (hid : x.ID = c.ID) : x = c := by
  induction l with
  | nil => cases hx
  | cons y ys ih =>
    rw [List.map_cons, List.nodup_cons] at hnd
    rcases List.mem_cons.mp hx with hx1 | hx1 <;>
      rcases List.mem_cons.mp hc with hc1 | hc1
    · rw [hx1, hc1]
    · exfalso
      apply hnd.1
      rw [← hx1, hid] at hnd ⊢
      exact List.mem_map.mpr ⟨c, hc1, rfl⟩
    · exfalso
      apply hnd.1
      rw [← hc1, ← hid] at hnd ⊢
      exact List.mem_map.mpr ⟨x, hx1, rfl⟩
    · exact ih hnd.2 hx1 hc1

theorem find?_eq_some_of_mem (l : List WebSocketConnection)
    (c : WebSocketConnection) (hnd : (l.map (·.ID)).Nodup) (hc : c ∈ l) :
    l.find? (fun x => x.ID == c.ID) = some c := by
  induction l with
  | nil => cases hc
  | cons y ys ih =>
    rw [List.map_cons, List.nodup_cons] at hnd
    cases hy : (y.ID == c.ID) with
    | true =>
      simp only [List.find?_cons, hy]
      rcases List.mem_cons.mp hc with hc1 | hc1
      · rw [hc1]
      · exfalso
        apply hnd.1
        rw [beq_iff_eq.mp hy]
        exact List.mem_map.mpr ⟨c, hc1, rfl⟩
    | false =>
      simp only [List.find?_cons, hy]
      rcases List.mem_cons.mp hc with hc1 | hc1
      · rw [hc1] at hy
        simp at hy
      · exact ih hnd.2 hc1

theorem map_if_not_mem (ys : List WebSocketConnection) (cid : String)
    (c : WebSocketConnection) (hnot : cid ∉ ys.map (·.ID)) :
    ys.map (fun x => if x.ID == cid then c else x) = ys := by
  induction ys with
  | nil => rfl
  | cons a t ih =>
    have ha : (a.ID == cid) = false := by
      refine beq_eq_false_iff_ne.mpr fun he => hnot ?_
      rw [← he]
      exact List.mem_map.mpr ⟨a, List.mem_cons_self a t, rfl⟩
    rw [List.map_cons, ha]
    simp only [if_false, Bool.false_eq_true]
    rw [ih fun hm => hnot (List.mem_cons_of_mem _ hm)]

theorem map_replace_found (l : List WebSocketConnection) (cid : String)
    (c : WebSocketConnection) (hnd : (l.map (·.ID)).Nodup)
    (hfind : l.find? (fun x => x.ID == cid) = some c) :
    l.map (fun x => if x.ID == cid then c else x) = l := by
  induction l with
  | nil => simp at hfind
  | cons y ys ih =>
    rw [List.map_cons, List.nodup_cons] at hnd
    cases hy : (y.ID == cid) with
    | true =>
      simp only [List.find?_cons, hy] at hfind
      have hyc : y = c := by injection hfind
      have hnot : cid ∉ ys.map (·.ID) := by
        rw [← beq_iff_eq.mp hy]
        exact hnd.1
      rw [List.map_cons, hy]
      simp only [if_true]
      rw [map_if_not_mem ys cid c hnot, hyc]
    | false =>
      simp only [List.find?_cons, hy] at hfind
      rw [List.map_cons, hy]
      simp only [if_false, Bool.false_eq_true]
      rw [ih hnd.2 hfind]

theorem connSend_of_serializable (c : WebSocketConnection)
    (msgType : String) (d : JValue) (now : Int)
    (hser : jSerializable d = true) :
    connSend c msgType d now
      = if hasRoom c then
          ({ c with Send := c.Send ++ [renderMessage msgType d now] },
           Except.ok ())
        else (c, Except.error "connection send channel is full") := by
  unfold connSend
  rw [marshalMessage_eq, hser]
  rfl

theorem sendToConnection_found (h : WebSocketHub) (cid msgType : String)
    (d : JValue) (now : Int) (c : WebSocketConnection)
    (hfind : h.connections.find? (fun x => x.ID == cid) = some c) :
    h.SendToConnection cid msgType d now
      = ({ h with
            connections :=
              h.connections.map
                (fun x => if x.ID == cid then (connSend c msgType d now).1 else x) },
         (connSend c msgType d now).2) := by
  unfold WebSocketHub.SendToConnection
  rw [hfind]

/-- Claim C3 counterexample: a connection with a full queue (capacity 1, one
queued message).  An enqueue attempt via `Send` returns the full-channel error
but the connection is NOT torn down — it stays in the registry — and an
enqueue attempt via broadcast fan-out removes it but fires no `OnDisconnect`;
both refute the claimed teardown (close + remove + `OnDisconnect`). -/
def x3hub : WebSocketHub := ⟨[⟨"a", ["m0"], 1, none⟩], []⟩

theorem overflow_no_full_teardown :
    ((x3hub.SendToConnection "a" "t" JValue.null 0).2
        = Except.error "connection send channel is full") ∧
    ((x3hub.SendToConnection "a" "t" JValue.null 0).1.ids = ["a"]) ∧
    ((stepBroadcast x3hub "x").1.ids = []) ∧
    ((stepBroadcast x3hub "x").2.countP (fun it => it.1.isOnDisconnect) = 0) :=
  ⟨rfl, rfl, rfl, rfl⟩

/-- Claim C3 amended: an enqueue on a full queue never blocks, but the two
enqueue paths differ, and neither performs the full claimed teardown.
Broadcast fan-out closes the overflowing connection's send queue and removes
it from the registry, but fires no `OnDisconnect` there; the connection's
`Send` method merely returns an error, leaving the connection registered and
its queue untouched (after broadcast removal a `SendToConnection` for the id
fails not-found, so no later enqueue through the hub reaches it). -/
theorem overflow_policy (h : WebSocketHub) (msg : String)
    (c : WebSocketConnection) (hc : c ∈ h.connections)
    (hfull : hasRoom c = false) (hnd : h.ids.Nodup) (msgType : String)
    (d : JValue) (now : Int) (hser : jSerializable d = true) :
    (c.ID ∉ (stepBroadcast h msg).1.ids) ∧
    (c.ID ∈ (stepBroadcast h msg).1.closedQs) ∧
    ((stepBroadcast h msg).2 = []) ∧
    ((h.SendToConnection c.ID msgType d now).1 = h) ∧
    ((h.SendToConnection c.ID msgType d now).2
        = Except.error "connection send channel is full") := by
  have hd := deliverAll_eq msg h.connections
  have hids : (stepBroadcast h msg).1.ids
      = (h.connections.filter hasRoom).map (·.ID) := by
    show ((deliverAll msg h.connections).1.map (·.ID)) = _
    rw [hd, List.map_map]
    rfl
  have hfind := find?_eq_some_of_mem h.connections c hnd hc
  have hcs : connSend c msgType d now
      = (c, Except.error "connection send channel is full") := by
    rw [connSend_of_serializable c msgType d now hser, hfull]
    rfl
  have hsend : h.SendToConnection c.ID msgType d now
      = ({ h with connections :=
            h.connections.map (fun x => if x.ID == c.ID then c else x) },
         Except.error "connection send channel is full") := by
    rw [sendToConnection_found h c.ID msgType d now c hfind, hcs]
  refine ⟨?_, ?_, rfl, ?_, ?_⟩
  · rw [hids]
    intro hmem
    rcases List.mem_map.mp hmem with ⟨x, hxf, hxid⟩
    have hxl := List.mem_filter.mp hxf
    have hxc : x = c := eq_of_mem_of_id_eq h.connections hnd x c hxl.1 hc hxid
    rw [hxc] at hxl
    rw [hfull] at hxl
    exact absurd hxl.2 (by simp)
  · show c.ID ∈ h.closedQs ++ (deliverAll msg h.connections).2
    rw [hd]
    refine List.mem_append_right _ ?_
    refine List.mem_map.mpr ⟨c, List.mem_filter.mpr ⟨hc, ?_⟩, rfl⟩
    simp [hfull]
  · rw [hsend]
    have := map_replace_found h.connections c.ID c hnd hfind
    show ({ h with connections :=
        h.connections.map (fun x => if x.ID == c.ID then c else x) } :
        WebSocketHub) = h
    rw [this]
  · rw [hsend]

def w3conn : WebSocketConnection := ⟨"b", ["1", "2", "3", "4"], 4, none⟩

def w3hub : WebSocketHub := ⟨[w3conn], []⟩

theorem overflow_policy_witness :
    ("b" ∉ (stepBroadcast w3hub "5").1.ids) ∧
    ("b" ∈ (stepBroadcast w3hub "5").1.closedQs) ∧
    ((w3hub.SendToConnection "b" "t" JValue.null 0).1 = w3hub) ∧
    ((w3hub.SendToConnection "b" "t" JValue.null 0).2
        = Except.error "connection send channel is full") := by
  obtain ⟨h1, h2, _, h4, h5⟩ := overflow_policy w3hub "5" w3conn
    (List.mem_singleton.mpr rfl) rfl (by decide) "t" JValue.null 0 rfl
  exact ⟨h1, h2, h4, h5⟩

/-- Claim C6 counterexample: with a full target queue, `SendToConnection`
returns an error and leaves the connection registered, whereas the broadcast
overflow policy on the same state closes its queue and removes it — so
`SendToOne` does NOT enqueue "with the same overflow policy as broadcast". -/
def x6hub : WebSocketHub := ⟨[⟨"a", ["m0"], 1, none⟩], []⟩

theorem sendToOne_policy_differs_from_broadcast :
    ((x6hub.SendToConnection "a" "t" JValue.null 0).1.ids = ["a"]) ∧
    ((x6hub.SendToConnection "a" "t" JValue.null 0).2
        = Except.error "connection send channel is full") ∧
    ((stepBroadcast x6hub "x").1.ids = []) ∧
    ((stepBroadcast x6hub "x").1.closedQs = ["a"]) :=
  ⟨rfl, rfl, rfl, rfl⟩

/-- Claim C6 amended: for an id absent from the registry at lookup time,
`SendToConnection` returns the not-found error and the whole hub state is
unchanged; for a registered id it enqueues the serialized message on that
connection's queue when there is room, and when the queue is full it returns
the full-channel error leaving the hub unchanged — an error-return overflow
policy, not broadcast's close-and-remove policy. -/
theorem sendToConnection_spec (h : WebSocketHub) (cid msgType : String)
    (d : JValue) (now : Int) (hnd : h.ids.Nodup) :
    (h.connections.all (fun x => x.ID != cid) = true →
      h.SendToConnection cid msgType d now
        = (h, Except.error ("connection " ++ cid ++ " not found"))) ∧
    (∀ c, h.connections.find? (fun x => x.ID == cid) = some c →
      jSerializable d = true →
      ((hasRoom c = true →
          (h.SendToConnection cid msgType d now).2 = Except.ok () ∧
          (h.SendToConnection cid msgType d now).1.connections
            = h.connections.map (fun x => if x.ID == cid then
                { c with Send := c.Send ++ [renderMessage msgType d now] }
              else x)) ∧
       (hasRoom c = false →
          (h.SendToConnection cid msgType d now).2
            = Except.error "connection send channel is full" ∧
          (h.SendToConnection cid msgType d now).1 = h))) := by
  constructor
  · intro hall
    have hfind : h.connections.find? (fun x => x.ID == cid) = none := by
      rw [List.find?_eq_none]
      intro x hx
      have := List.all_eq_true.mp hall x hx
      simp only [bne_iff_ne, ne_eq, decide_eq_true_eq] at this
      simp [this]
    unfold WebSocketHub.SendToConnection
    rw [hfind]
  · intro c hfind hser
    constructor
    · intro hroom
      have hcs : connSend c msgType d now
          = ({ c with Send := c.Send ++ [renderMessage msgType d now] },
             Except.ok ()) := by
        rw [connSend_of_serializable c msgType d now hser, hroom]
        rfl
      rw [sendToConnection_found h cid msgType d now c hfind, hcs]
      exact ⟨rfl, rfl⟩
    · intro hfull
      have hcs : connSend c msgType d now
          = (c, Except.error "connection send channel is full") := by
        rw [connSend_of_serializable c msgType d now hser, hfull]
        rfl
      rw [sendToConnection_found h cid msgType d now c hfind, hcs]
      refine ⟨rfl, ?_⟩
      show ({ h with connections :=
          h.connections.map (fun x => if x.ID == cid then c else x) } :
          WebSocketHub) = h
      rw [map_replace_found h.connections cid c hnd hfind]

def w6hub : WebSocketHub := ⟨[⟨"a", [], 4, none⟩], []⟩

theorem sendToConnection_spec_witness :
    (w6hub.SendToConnection "z" "t" JValue.null 0
        = (w6hub, Except.error "connection z not found")) ∧
    ((w6hub.SendToConnection "a" "t" JValue.null 0).2 = Except.ok ()) := by
  refine ⟨?_, ?_⟩
  · exact (sendToConnection_spec w6hub "z" "t" JValue.null 0 (by decide)).1
      (by decide)
  · exact (((sendToConnection_spec w6hub "a" "t" JValue.null 0
      (by decide)).2 ⟨"a", [], 4, none⟩ rfl rfl).1 rfl).1

theorem getMetadata_set_self (c : WebSocketConnection) (k : String)
    (v : JValue) : (c.SetMetadata k v).GetMetadata k = (some v, true) := by
  simp [WebSocketConnection.SetMetadata, WebSocketConnection.GetMetadata,
    List.lookup]

theorem getMetadata_set_ne (c : WebSocketConnection) (k k' : String)
    (v : JValue) (hne : k' ≠ k) :
    (c.SetMetadata k v).GetMetadata k' = c.GetMetadata k' := by
  have hb : (k' == k) = false := beq_eq_false_iff_ne.mpr hne
  cases hm : c.Metadata with
  | none =>
    simp [WebSocketConnection.SetMetadata, WebSocketConnection.GetMetadata,
      hm, List.lookup, hb]
  | some l =>
    simp [WebSocketConnection.SetMetadata, WebSocketConnection.GetMetadata,
      hm, List.lookup, hb]

theorem getMetadata_applySets (k : String) (sets : List (String × JValue)) :
    ∀ c : WebSocketConnection, c.GetMetadata k = (none, false) →
      (∀ p ∈ sets, p.1 ≠ k) →
      (applySets c sets).GetMetadata k = (none, false) := by
  induction sets with
  | nil => exact fun c h0 _ => h0
  | cons p rest ih =>
    intro c h0 hk
    have hp : p.1 ≠ k := hk p (List.mem_cons_self p rest)
    have hstep : (c.SetMetadata p.1 p.2).GetMetadata k = (none, false) := by
      rw [getMetadata_set_ne c p.1 k p.2 (Ne.symm hp)]
      exact h0
    exact ih (c.SetMetadata p.1 p.2) hstep
      fun q hq => hk q (List.mem_cons_of_mem p hq)

/-- Claim C10: `SetMetadata` then `GetMetadata` on the same key yields the
stored value with `true`; `GetMetadata` on a different key is unaffected by
the store; and a key never set — starting from a connection where it is
absent, through any sequence of stores to other keys — reads `(nil, false)`. -/
theorem metadata_get_set (c : WebSocketConnection) (k k' : String)
    (v : JValue) (sets : List (String × JValue)) :
    ((c.SetMetadata k v).GetMetadata k = (some v, true)) ∧
    (k' ≠ k → (c.SetMetadata k v).GetMetadata k' = c.GetMetadata k') ∧
    (c.GetMetadata k = (none, false) → (∀ p ∈ sets, p.1 ≠ k) →
      (applySets c sets).GetMetadata k = (none, false)) :=
  ⟨getMetadata_set_self c k v,
   fun hne => getMetadata_set_ne c k k' v hne,
   fun h0 hk => getMetadata_applySets k sets c h0 hk⟩

def w10conn : WebSocketConnection := ⟨"a", [], 4, none⟩

theorem metadata_get_set_witness :
    ((w10conn.SetMetadata "k1" (JValue.num 5)).GetMetadata "k1"
        = (some (JValue.num 5), true)) ∧
    ((w10conn.SetMetadata "k1" (JValue.num 5)).GetMetadata "k2"
        = w10conn.GetMetadata "k2") ∧
    ((applySets w10conn [("x", JValue.null)]).GetMetadata "k1"
        = (none, false)) := by
  obtain ⟨h1, h2, h3⟩ :=
    metadata_get_set w10conn "k1" "k2" (JValue.num 5) [("x", JValue.null)]
  exact ⟨h1, h2 (by decide), h3 rfl (by decide)⟩

end Supergin
